import Mathlib

/-!
Verification of the plugin host in `src/plugin.rs` (roc-plugins-for-rust).

The development shallowly embeds the plugin header parser, the header
renderer, the type-directed invoker's call-shape selection and argument
marshaling, the panic-isolation boundary, the plugin loader's header/body
split, and the compilation driver's exit-status handling.

The embedding follows the Rust source:
 - `DType`, `DType.as_str`, `dtype_from_str` embed the `DType` enum and its
   `as_str` / `FromStr` impls.
 - `parse_header` embeds `parse_header`, including a faithful model of the
   anchored regex
   `^#\[plugin\] (?P<name>\w+) : ((?P<args>[\w, ]+) -> )?(?P<ret>\w+)$`
   under the leftmost-first, greedy capture semantics of the `regex` crate,
   and of `str::split_terminator(", ")`.  The regex class `\w` is modelled
   on the ASCII range (alphanumeric or underscore).
 - `Value`, `generate_value`, `Value.as_void_ptr` embed the `Value` enum;
   since the embedding has no machine memory, `as_void_ptr` takes the
   address at which the value itself is stored as an explicit parameter.
 - `invoke0` / `invoke1` / `invoke2` embed the native call shape (return
   convention and argument slot words) each of the Rust methods selects.
 - `catch_unwind_silent`, `invokeDispatch`, `invoke` embed the control flow
   of `Plugin::invoke`: hook swapping, panic catching, message extraction.
 - `loadPlugin` embeds the header/body split of `Plugin::load`.
 - `compileRun` embeds the exit-status handling of `compile`.
-/

namespace RocPlugins

/-- The `DType` enum from the source: the two scalar plugin types. -/
inductive DType
  | Str
  | U64
deriving DecidableEq, Repr

/-- Model of `DType::as_str`: canonical textual name of a scalar type. -/
def DType.as_str : DType → String
  | .Str => "Str"
  | .U64 => "U64"

/-- Character-list form of `DType::as_str`, used by the parser lemmas. -/
def DType.asChars (d : DType) : List Char := d.as_str.data

/-- Model of `<DType as FromStr>::from_str`: resolve a type token; an unrecognized
token is returned as the error value (`Err(s.into())` in the source). -/
def dtype_from_str (cs : List Char) : Except String DType :=
  if cs = "Str".data then .ok .Str
  else if cs = "U64".data then .ok .U64
  else .error ⟨cs⟩

/-- Model of the regex class `\w` (restricted to the ASCII range):
alphanumeric or underscore. -/
def isWordChar (c : Char) : Bool := c.isAlphanum || c = '_'

/-- Model of the regex class `[\w, ]`: a word character, a comma, or a
space. -/
def isArgsChar (c : Char) : Bool := isWordChar c || c = ',' || c = ' '

/-- The literal marker prefix `#[plugin] ` of the header regex. -/
def markerL : List Char := "#[plugin] ".data

/-- The literal ` -> ` separator of the header regex. -/
def sepArrow : List Char := [' ', '-', '>', ' ']

/-- One backtracking attempt of the regex group `(?P<args>[\w, ]+) -> `
followed by `(?P<ret>\w+)$`: split the tail `R` after `k` characters and
check that the first part is a nonempty `[\w, ]+` capture, that ` -> `
follows, and that the rest is a nonempty `\w+` capture reaching the end of
the line. -/
def checkSplit (R : List Char) (k : Nat) : Option (List Char × List Char) :=
  let args := R.take k
  let rest := R.drop k
  if args ≠ [] ∧ args.all isArgsChar ∧ rest.take 4 = sepArrow ∧
      (rest.drop 4) ≠ [] ∧ (rest.drop 4).all isWordChar
  then some (args, rest.drop 4)
  else none

/-- Greedy backtracking over the length of the `args` capture: the `regex`
crate's leftmost-first semantics tries the longest `[\w, ]+` capture first
and shrinks it until the remainder of the pattern matches. -/
def findSplit (R : List Char) : Nat → Option (List Char × List Char)
  | 0 => none
  | k + 1 =>
    match checkSplit R (k + 1) with
    | some p => some p
    | none => findSplit R k

/-- Model of matching `((?P<args>[\w, ]+) -> )?(?P<ret>\w+)$` against the
tail of the header.  The optional group is preferred (greedy `?`); if no
split succeeds the whole tail must be a nonempty `\w+` return token. -/
def matchTail (R : List Char) : Option (Option (List Char) × List Char) :=
  match findSplit R (R.takeWhile isArgsChar).length with
  | some (args, ret) => some (some args, ret)
  | none => if R ≠ [] ∧ R.all isWordChar then some (none, R) else none

/-- Model of `str::split(", ")`: split at each leftmost non-overlapping
occurrence of a comma followed by a space. -/
def splitFull : List Char → List (List Char)
  | [] => [[]]
  | [c] => [[c]]
  | c1 :: c2 :: cs =>
    if c1 = ',' ∧ c2 = ' ' then [] :: splitFull cs
    else
      match splitFull (c2 :: cs) with
      | p :: ps => (c1 :: p) :: ps
      | [] => [[c1]]

/-- Model of `str::split_terminator(", ")`: like `split(", ")` but a
trailing empty piece is dropped. -/
def splitTerminator (cs : List Char) : List (List Char) :=
  let ps := splitFull cs
  if ps.getLast? = some [] then ps.dropLast else ps

/-- The `Meta` struct from the source: a parsed plugin signature. -/
structure Meta where
  name : String
  arg_types : List DType
  return_type : DType
deriving DecidableEq, Repr

/-- Failure modes of `parse_header`: the regex fails to match (`captures`
unwrap), or a type token is unrecognized (`parse` unwrap, carrying the
offending token). -/
inductive ParseError
  | noMatch
  | unknownType (tok : String)
deriving DecidableEq, Repr

/-- Model of `args.split_terminator(", ").map(|x| x.parse().unwrap()).collect()`:
parse the argument type tokens left to right, failing at the first
unrecognized token. -/
def parseTypeList : List (List Char) → Except String (List DType)
  | [] => .ok []
  | t :: ts =>
    match dtype_from_str t with
    | .error e => .error e
    | .ok d =>
      match parseTypeList ts with
      | .error e => .error e
      | .ok ds => .ok (d :: ds)

/-- Resolve the split argument tokens (left to right) and then the return
token into a `Meta`, reporting the first unrecognized token. -/
def parseToks (nameL : List Char) (toks : List (List Char))
    (retL : List Char) : Except ParseError Meta :=
  match parseTypeList toks with
  | .error t => .error (.unknownType t)
  | .ok dts =>
    match dtype_from_str retL with
    | .error t => .error (.unknownType t)
    | .ok ret => .ok ⟨⟨nameL⟩, dts, ret⟩

/-- The part of `parse_header` after the regex has matched: split the args
capture (absent group means empty token list), parse the argument tokens,
then the return token. -/
def parseCaptures (nameL : List Char) (argsO : Option (List Char))
    (retL : List Char) : Except ParseError Meta :=
  parseToks nameL
    (match argsO with
     | none => []
     | some a => splitTerminator a)
    retL

/-- The body of `parse_header` on a character list: match the anchored header regex
(marker literal, greedy `\w+` name, literal ` : `, then the optional
argument group and the return token), then resolve the captured tokens. -/
def parseHeaderL (cs : List Char) : Except ParseError Meta :=
  if cs.take 10 ≠ markerL then .error .noMatch
  else
    let rest := cs.drop 10
    let nameL := rest.takeWhile isWordChar
    let rest2 := rest.dropWhile isWordChar
    if nameL = [] then .error .noMatch
    else if rest2.take 3 ≠ [' ', ':', ' '] then .error .noMatch
    else
      match matchTail (rest2.drop 3) with
      | none => .error .noMatch
      | some (argsO, retL) => parseCaptures nameL argsO retL

/-- Model of `parse_header` from the source, as a function total in its error monad:
the source `unwrap`s, aborting the process, where this returns `.error`. -/
def parse_header (s : String) : Except ParseError Meta :=
  parseHeaderL s.data

/-- The `", "`-intercalation of token lists, used to state rendering and
canonical-form results. -/
def intercalateCS : List (List Char) → List Char
  | [] => []
  | [t] => t
  | t :: t2 :: ts => t ++ [',', ' '] ++ intercalateCS (t2 :: ts)

/-- The tail of a header in the grammar's shape: either just the return
token, or the `", "`-separated argument tokens followed by ` -> ` and the
return token. -/
def tailForm (toks : List (List Char)) (retL : List Char) : List Char :=
  match toks with
  | [] => retL
  | t :: ts => intercalateCS (t :: ts) ++ sepArrow ++ retL

/-- The tail of the canonical textual header form of a signature: either
just the return type name, or the `", "`-separated argument type names
followed by ` -> ` and the return type name. -/
def renderTail (ts : List DType) (ret : DType) : List Char :=
  tailForm (ts.map DType.asChars) ret.asChars

/-- The canonical textual header form of a signature, per the §4.2 grammar
with the type names from `DType::as_str`. -/
def renderHeader (m : Meta) : String :=
  ⟨markerL ++ m.name.data ++ [' ', ':', ' '] ++
    renderTail m.arg_types m.return_type⟩

/-- Like `renderHeader` but with a single trailing `", "` after the last
argument type (only meaningful for a nonempty argument list). -/
def renderHeaderTrailing (m : Meta) : String :=
  ⟨markerL ++ m.name.data ++ [' ', ':', ' '] ++
    intercalateCS (m.arg_types.map DType.asChars) ++ [',', ' '] ++
    sepArrow ++ m.return_type.asChars⟩

/-- A header text in the grammar's shape built from raw (unresolved) type
tokens, used to state results about unrecognized tokens. -/
def renderHeaderRaw (name : String) (toks : List String) (ret : String) :
    String :=
  ⟨markerL ++ name.data ++ [' ', ':', ' '] ++
    tailForm (toks.map String.data) ret.data⟩

/-- The first token in declaration order (arguments, then the return) that
`dtype_from_str` rejects; defaults to the return token. -/
def firstBadToken (toks : List (List Char)) (retL : List Char) : List Char :=
  match toks with
  | [] => retL
  | t :: ts =>
    match dtype_from_str t with
    | .error _ => t
    | .ok _ => firstBadToken ts retL

/-- The `Value` enum from the source: a synthesized scalar argument. -/
inductive Value
  | Str (s : String)
  | U64 (n : Nat)
deriving DecidableEq, Repr

/-- Model of `generate_value`: the fixed placeholder value for each scalar type
(`"foo"` for `Str`, `42` for `U64`). -/
def generate_value : DType → Value
  | .Str => .Str "foo"
  | .U64 => .U64 42

/-- Model of `Value::as_void_ptr`: the machine word passed in an argument slot.
The embedding has no memory, so `addr` is the address at which the `Value`
itself is stored.  A `Str` value yields its own address
(`s as *const _ as *const _`); a `U64` value yields the integer itself cast
to a pointer-sized word (`*n as *const _`), reduced modulo 2^64 as the
64-bit cast does. -/
def Value.as_void_ptr (v : Value) (addr : Nat) : Nat :=
  match v with
  | .Str _ => addr
  | .U64 n => n % 2 ^ 64

/-- The return convention of a native call shape: the result is written
through a caller-supplied out-parameter address, or returned directly. -/
inductive RetConv
  | outParam
  | direct
deriving DecidableEq, Repr

/-- The native call shape selected by the invoker: the return convention
and the machine words placed in the (non-return) argument slots. -/
structure NativeCall where
  retConv : RetConv
  argSlots : List Nat
deriving DecidableEq, Repr

/-- The native call shape of `Plugin::invoke0`: `fn(*mut RocStr)` for a
`Str` return, `fn() -> u64` for a `U64` return. -/
def invoke0 (ret : DType) : NativeCall :=
  match ret with
  | .Str => ⟨.outParam, []⟩
  | .U64 => ⟨.direct, []⟩

/-- The native call shape of `Plugin::invoke1` with the synthesized
argument stored at address `a1`: `fn(*mut RocStr, *const c_void)` for a
`Str` return, `fn(*const c_void) -> u64` for a `U64` return. -/
def invoke1 (t1 ret : DType) (a1 : Nat) : NativeCall :=
  let v1 := generate_value t1
  match ret with
  | .Str => ⟨.outParam, [v1.as_void_ptr a1]⟩
  | .U64 => ⟨.direct, [v1.as_void_ptr a1]⟩

/-- The native call shape of `Plugin::invoke2` with the synthesized
arguments stored at addresses `a1`, `a2`:
`fn(*mut RocStr, *const c_void, *const c_void)` for a `Str` return, and
`fn(*mut u64, *const c_void, *const c_void)` — an out-parameter — for a
`U64` return. -/
def invoke2 (t1 t2 ret : DType) (a1 a2 : Nat) : NativeCall :=
  let v1 := generate_value t1
  let v2 := generate_value t2
  match ret with
  | .Str => ⟨.outParam, [v1.as_void_ptr a1, v2.as_void_ptr a2]⟩
  | .U64 => ⟨.outParam, [v1.as_void_ptr a1, v2.as_void_ptr a2]⟩

/-- The process-wide panic hook: the default hook, the silent hook
installed by `catch_unwind_silent`, or any other installed hook. -/
inductive Hook
  | dflt
  | silent
  | custom (n : Nat)
deriving DecidableEq, Repr

/-- The host-process state visible to the invoker: the installed panic
hook and the lines written so far to standard output and standard error. -/
structure HostState where
  hook : Hook
  stdout : List String
  stderr : List String
deriving DecidableEq, Repr

/-- A panic payload, as seen by `Box<dyn Any>::downcast::<String>`: either
a `String` message or some other payload type. -/
inductive Payload
  | strMsg (msg : String)
  | nonStr
deriving DecidableEq, Repr

/-- Model of `catch_unwind_silent`: save the current hook (`take_hook`), install the
silent hook, run the wrapped computation catching any panic, then restore
the saved hook before returning the computation's outcome. -/
def catch_unwind_silent (f : HostState → Except Payload Unit × HostState)
    (s : HostState) : Except Payload Unit × HostState :=
  let prev_hook := s.hook
  let s1 : HostState := { s with hook := Hook.silent }
  let r := f s1
  (r.1, { r.2 with hook := prev_hook })

/-- One foreign entry-point call followed by `println!(">>> {result}")`:
`callee` is the outcome of the call — the rendered result on success, or
the panic payload if the callee aborts abnormally (in which case nothing is
printed). -/
def runCall (callee : Except Payload String) (s : HostState) :
    Except Payload Unit × HostState :=
  match callee with
  | .ok r => (.ok (), { s with stdout := s.stdout ++ [">>> " ++ r] })
  | .error p => (.error p, s)

/-- The closure `Plugin::invoke` passes to `catch_unwind_silent`: dispatch
on the argument arity; arities 0–2 perform the foreign call, any other
arity panics via `unimplemented!("more than 2 arguments")`, whose payload
is the formatted `String` message. -/
def invokeDispatch (m : Meta) (callee : Except Payload String)
    (s : HostState) : Except Payload Unit × HostState :=
  match m.arg_types with
  | [] => runCall callee s
  | [_] => runCall callee s
  | [_, _] => runCall callee s
  | _ => (.error (.strMsg "not implemented: more than 2 arguments"), s)

/-- Model of `Plugin::invoke`: run the dispatch inside `catch_unwind_silent`; on a
caught panic, `downcast::<String>().unwrap()` the payload and report it on
standard error.  A non-`String` payload makes that `unwrap` itself panic
outside any catch boundary, aborting the host process (`.error ()`). -/
def invoke (m : Meta) (callee : Except Payload String) (s : HostState) :
    Except Unit HostState :=
  let r := catch_unwind_silent (invokeDispatch m callee) s
  match r.1 with
  | .ok _ => .ok r.2
  | .error (.strMsg msg) =>
      .ok { r.2 with stderr := r.2.stderr ++ ["plugin panicked: " ++ msg] }
  | .error .nonStr => .error ()

/-- Failure modes of `Plugin::load` up to header parsing: the file contents
contain no newline (`split_once('\n')` unwrap), or the header does not
parse. -/
inductive LoadError
  | noNewline
  | parse (e : ParseError)
deriving DecidableEq, Repr

/-- Model of `str::split_once('\n')`: split at the first newline, `none`
when the string contains no newline. -/
def splitOnce : List Char → Option (List Char × List Char)
  | [] => none
  | c :: cs =>
    if c = '\n' then some ([], cs)
    else (splitOnce cs).map fun p => (c :: p.1, p.2)

/-- The front of `Plugin::load`: split the file contents into the header
(text before the first newline) and the body (everything after it), then
parse the header.  The compile and library-load steps that follow operate
on external state and are modelled separately (`compileRun`). -/
def loadPlugin (code : String) : Except LoadError (Meta × String) :=
  match splitOnce code.data with
  | none => .error .noNewline
  | some (h, b) =>
    match parseHeaderL h with
    | .error e => .error (.parse e)
    | .ok m => .ok (m, ⟨b⟩)

deriving instance DecidableEq for Except

/-- The observable outcome of the `compile` function for a given external
compiler exit status: the subprocess argument list, whether
`Library::new` is reached, and either the loaded library path or the raw
exit status carried by the `roc compile failed` panic. -/
structure CompileTrace where
  rocArgs : List String
  loadAttempted : Bool
  result : Except Int String
deriving DecidableEq, Repr

/-- Model of `compile`: invoke `roc build --lib --output <dylib> <app>`; on exit
status zero load the library from the declared output path, otherwise
panic with the raw exit status and never reach `Library::new`. -/
def compileRun (dylibPath appPath : String) (status : Int) : CompileTrace :=
  { rocArgs := ["build", "--lib", "--output", dylibPath, appPath]
    loadAttempted := status == 0
    result := if status = 0 then .ok dylibPath else .error status }

/-! ### Lemmas about the header regex model -/

theorem isArgsChar_of_word {c : Char} (h : isWordChar c = true) :
    isArgsChar c = true := by
  simp [isArgsChar, h]

theorem not_word_space : isWordChar ' ' = false := by decide

theorem not_word_comma : isWordChar ',' = false := by decide

/-- Reduction of `parseHeaderL` on a text of the shape
`#[plugin] <name> : <tail>` with a well-formed name: the marker, the name
and the ` : ` literal are consumed, and parsing continues on the tail. -/
theorem parseHeaderL_parts (nameL tail : List Char) (h1 : nameL ≠ [])
    (h2 : ∀ c ∈ nameL, isWordChar c) :
    parseHeaderL (markerL ++ nameL ++ ' ' :: ':' :: ' ' :: tail) =
      match matchTail tail with
      | none => .error .noMatch
      | some (argsO, retL) => parseCaptures nameL argsO retL := by
  have hmark : (markerL ++ (nameL ++ ' ' :: ':' :: ' ' :: tail)).take 10 =
      markerL := List.take_left' rfl
  have hdrop : (markerL ++ (nameL ++ ' ' :: ':' :: ' ' :: tail)).drop 10 =
      nameL ++ ' ' :: ':' :: ' ' :: tail := List.drop_left' rfl
  have htw : (nameL ++ ' ' :: ':' :: ' ' :: tail).takeWhile isWordChar =
      nameL := by
    rw [List.takeWhile_append_of_pos h2]
    simp [List.takeWhile_cons, not_word_space]
  have hdw : (nameL ++ ' ' :: ':' :: ' ' :: tail).dropWhile isWordChar =
      ' ' :: ':' :: ' ' :: tail := by
    rw [List.dropWhile_append_of_pos h2]
    simp [List.dropWhile_cons, not_word_space]
  rw [parseHeaderL, List.append_assoc]
  rw [if_neg (by rw [hmark]; exact fun h => h rfl)]
  simp only [hdrop, htw, hdw]
  rw [if_neg (by exact fun h => h1 h)]
  rw [if_neg (by exact fun h => h rfl)]
  rfl

/-- No backtracking attempt succeeds inside an all-word tail: the ` -> `
literal cannot occur there. -/
theorem checkSplit_none_of_word {R : List Char}
    (h : ∀ c ∈ R, isWordChar c) (k : Nat) : checkSplit R k = none := by
  simp only [checkSplit]
  apply if_neg
  intro hc
  have hsp : ' ' ∈ (R.drop k).take 4 := by
    rw [hc.2.2.1]; simp [sepArrow]
  have : isWordChar ' ' = true :=
    h _ (List.drop_subset k R (List.take_subset 4 _ hsp))
  simp [not_word_space] at this

theorem findSplit_none_of_word {R : List Char}
    (h : ∀ c ∈ R, isWordChar c) (n : Nat) : findSplit R n = none := by
  induction n with
  | zero => rfl
  | succ k ih => rw [findSplit, checkSplit_none_of_word h]; exact ih

/-- Matching the header tail against a single all-word token selects the
group-absent alternative with the whole tail as the return capture. -/
theorem matchTail_ret {retL : List Char} (h1 : retL ≠ [])
    (h2 : ∀ c ∈ retL, isWordChar c) :
    matchTail retL = some (none, retL) := by
  rw [matchTail, findSplit_none_of_word h2]
  rw [if_pos ⟨h1, List.all_eq_true.2 h2⟩]

/-- Matching the header tail against `<args> -> <ret>` with an all-class
args text and an all-word return token: the greedy backtracking settles on
exactly the args text as the group capture. -/
theorem matchTail_args {argsL retL : List Char} (ha : argsL ≠ [])
    (h2 : ∀ c ∈ argsL, isArgsChar c) (h3 : retL ≠ [])
    (h4 : ∀ c ∈ retL, isWordChar c) :
    matchTail (argsL ++ sepArrow ++ retL) = some (some argsL, retL) := by
  have hsep : sepArrow ++ retL = ' ' :: '-' :: '>' :: ' ' :: retL := rfl
  have htw : (argsL ++ sepArrow ++ retL).takeWhile isArgsChar =
      argsL ++ [' '] := by
    rw [List.append_assoc, hsep, List.takeWhile_append_of_pos h2]
    have hspace : isArgsChar ' ' = true := by decide
    have hdash : isArgsChar '-' = false := by decide
    simp [List.takeWhile_cons, hspace, hdash]
  have e2 : (argsL ++ sepArrow ++ retL).drop (argsL.length + 1) =
      '-' :: '>' :: ' ' :: retL := by
    have : argsL ++ sepArrow ++ retL =
        (argsL ++ [' ']) ++ ('-' :: '>' :: ' ' :: retL) := by
      simp [sepArrow]
    rw [this]
    exact List.drop_left' (by simp)
  have c1 : checkSplit (argsL ++ sepArrow ++ retL) (argsL.length + 1) =
      none := by
    simp only [checkSplit, e2]
    apply if_neg
    intro hc
    have := hc.2.2.1
    simp [sepArrow, List.take_succ_cons] at this
  have et : (argsL ++ sepArrow ++ retL).take argsL.length = argsL := by
    rw [List.append_assoc]; exact List.take_left argsL _
  have ed : (argsL ++ sepArrow ++ retL).drop argsL.length =
      sepArrow ++ retL := by
    rw [List.append_assoc]; exact List.drop_left argsL _
  have c2 : checkSplit (argsL ++ sepArrow ++ retL) argsL.length =
      some (argsL, retL) := by
    simp only [checkSplit, et, ed]
    rw [List.take_left' (by rfl : sepArrow.length = 4),
      List.drop_left' (by rfl : sepArrow.length = 4)]
    rw [if_pos ⟨ha, List.all_eq_true.2 h2, rfl, h3, List.all_eq_true.2 h4⟩]
  obtain ⟨m, hm⟩ : ∃ m, argsL.length = m + 1 :=
    ⟨argsL.length - 1, by have := List.length_pos.2 ha; omega⟩
  rw [matchTail, htw]
  have hlen : (argsL ++ [' ']).length = argsL.length + 1 := by simp
  rw [hlen, findSplit, c1, hm, findSplit, ← hm, c2]

/-! ### Lemmas about the `split_terminator(", ")` model -/

theorem splitFull_ne_nil (cs : List Char) : splitFull cs ≠ [] := by
  induction cs using splitFull.induct with
  | case1 => simp [splitFull]
  | case2 c => simp [splitFull]
  | case3 c1 c2 cs h ih => simp [splitFull, h]
  | case4 c1 c2 cs h p ps hps ih => rw [splitFull, if_neg h, hps]; simp
  | case5 c1 c2 cs h hps ih => rw [splitFull, if_neg h, hps]; simp

theorem splitFull_sep (cs : List Char) :
    splitFull (',' :: ' ' :: cs) = [] :: splitFull cs := by
  rw [splitFull, if_pos ⟨rfl, rfl⟩]

/-- Prepending an all-word text to a string extends the first piece of its
`", "`-split: word characters contain no separator. -/
theorem splitFull_word_app {t rest : List Char} (hw : ∀ c ∈ t, isWordChar c)
    {p : List Char} {ps : List (List Char)} (h : splitFull rest = p :: ps) :
    splitFull (t ++ rest) = (t ++ p) :: ps := by
  induction t with
  | nil => simpa using h
  | cons c t ih =>
    have hc : isWordChar c := hw c (by simp)
    have hcne : c ≠ ',' := by
      intro hc2
      rw [hc2] at hc
      exact absurd hc (by decide)
    have ihh := ih fun c hm => hw c (by simp [hm])
    show splitFull (c :: (t ++ rest)) = ((c :: t) ++ p) :: ps
    cases hx : t ++ rest with
    | nil =>
      obtain ⟨ht0, hr0⟩ := List.append_eq_nil.1 hx
      subst ht0; subst hr0
      rw [splitFull] at h
      cases h
      rfl
    | cons d ds =>
      rw [splitFull, if_neg fun hand => hcne hand.1, ← hx, ihh]
      rfl

/-- Splitting on `", "` undoes `", "`-intercalation of all-word pieces. -/
theorem splitFull_intercalateCS {toks : List (List Char)}
    (hw : ∀ t ∈ toks, ∀ c ∈ t, isWordChar c) (hne : toks ≠ []) :
    splitFull (intercalateCS toks) = toks := by
  induction toks with
  | nil => exact absurd rfl hne
  | cons t ts ih =>
    cases ts with
    | nil =>
      show splitFull (intercalateCS [t]) = [t]
      rw [intercalateCS]
      have : splitFull (t ++ []) = (t ++ []) :: [] :=
        splitFull_word_app (hw t (by simp)) (by rw [splitFull])
      simpa using this
    | cons t2 ts2 =>
      rw [intercalateCS]
      have hrec : splitFull (intercalateCS (t2 :: ts2)) = t2 :: ts2 :=
        ih (fun u hu c hc => hw u (by simp [hu]) c hc) (List.cons_ne_nil _ _)
      have hsep : splitFull (',' :: ' ' :: intercalateCS (t2 :: ts2)) =
          [] :: t2 :: ts2 := by rw [splitFull_sep, hrec]
      have := splitFull_word_app (hw t (by simp)) hsep
      simpa using this

theorem getLast?_ne_some_nil {ps : List (List Char)}
    (h : ∀ t ∈ ps, t ≠ []) : ps.getLast? ≠ some ([] : List Char) := by
  intro hl
  have hmem := List.dropLast_append_getLast? _ hl
  have : ([] : List Char) ∈ ps := by
    rw [← hmem]; simp
  exact h _ this rfl

/-- The `split_terminator(", ")` model undoes `", "`-intercalation of nonempty
all-word pieces: no trailing empty piece arises. -/
theorem splitTerminator_intercalateCS {toks : List (List Char)}
    (ht : ∀ t ∈ toks, t ≠ [] ∧ ∀ c ∈ t, isWordChar c) (hne : toks ≠ []) :
    splitTerminator (intercalateCS toks) = toks := by
  rw [splitTerminator, splitFull_intercalateCS (fun t h => (ht t h).2) hne]
  rw [if_neg (getLast?_ne_some_nil fun t h => (ht t h).1)]

theorem intercalateCS_all_argsChar {toks : List (List Char)}
    (hw : ∀ t ∈ toks, ∀ c ∈ t, isWordChar c) :
    ∀ c ∈ intercalateCS toks, isArgsChar c := by
  induction toks with
  | nil => simp [intercalateCS]
  | cons t ts ih =>
    cases ts with
    | nil =>
      intro c hc
      exact isArgsChar_of_word (hw t (by simp) c (by simpa using hc))
    | cons t2 ts2 =>
      rw [intercalateCS]
      intro c hc
      rcases List.mem_append.1 hc with h1 | h2
      · rcases List.mem_append.1 h1 with h3 | h4
        · exact isArgsChar_of_word (hw t (by simp) c h3)
        · have hcc : c = ',' ∨ c = ' ' := by simpa using h4
          rcases hcc with h | h <;> (subst h; decide)
      · exact ih (fun u hu c hc => hw u (by simp [hu]) c hc) c h2

theorem intercalateCS_ne_nil {toks : List (List Char)}
    (ht : ∀ t ∈ toks, t ≠ []) (hne : toks ≠ []) :
    intercalateCS toks ≠ [] := by
  cases toks with
  | nil => exact absurd rfl hne
  | cons t ts =>
    cases ts with
    | nil => simpa [intercalateCS] using ht t (by simp)
    | cons t2 ts2 =>
      rw [intercalateCS]
      simp

/-! ### Lemmas about token resolution -/

theorem dtype_from_str_asChars (d : DType) :
    dtype_from_str d.asChars = .ok d := by
  cases d <;> rfl

theorem asChars_ne_nil (d : DType) : d.asChars ≠ [] := by
  cases d <;> decide

theorem asChars_word (d : DType) : ∀ c ∈ d.asChars, isWordChar c := by
  cases d <;> decide

theorem dtype_from_str_ok {cs : List Char} {d : DType}
    (h : dtype_from_str cs = .ok d) : cs = d.asChars := by
  rw [dtype_from_str] at h
  by_cases h1 : cs = "Str".data
  · rw [if_pos h1] at h
    cases h
    exact h1
  · rw [if_neg h1] at h
    by_cases h2 : cs = "U64".data
    · rw [if_pos h2] at h
      cases h
      exact h2
    · rw [if_neg h2] at h
      cases h

theorem parseTypeList_map (ts : List DType) :
    parseTypeList (ts.map DType.asChars) = .ok ts := by
  induction ts with
  | nil => rfl
  | cons d ds ih =>
    rw [List.map_cons, parseTypeList, dtype_from_str_asChars, ih]

theorem parseTypeList_ok {toks : List (List Char)} {ds : List DType}
    (h : parseTypeList toks = .ok ds) : toks = ds.map DType.asChars := by
  induction toks generalizing ds with
  | nil =>
    cases h
    rfl
  | cons t ts ih =>
    rw [parseTypeList] at h
    cases hd : dtype_from_str t with
    | error e => rw [hd] at h; cases h
    | ok d =>
      rw [hd] at h
      cases hts : parseTypeList ts with
      | error e => rw [hts] at h; cases h
      | ok ds2 =>
        rw [hts] at h
        cases h
        rw [List.map_cons, ← dtype_from_str_ok hd, ← ih hts]

theorem parseToks_ok_of_wf (nameL : List Char) (ts : List DType)
    (ret : DType) :
    parseToks nameL (ts.map DType.asChars) ret.asChars =
      .ok ⟨⟨nameL⟩, ts, ret⟩ := by
  rw [parseToks, parseTypeList_map, dtype_from_str_asChars]

/-- The master forward lemma: a header text in the grammar's shape with a
well-formed name, nonempty all-word argument tokens and an all-word return
token parses by resolving exactly those tokens, in order. -/
theorem parseHeaderL_rendered (nameL : List Char) (toks : List (List Char))
    (retL : List Char) (hn1 : nameL ≠ []) (hn2 : ∀ c ∈ nameL, isWordChar c)
    (ht : ∀ t ∈ toks, t ≠ [] ∧ ∀ c ∈ t, isWordChar c)
    (hr1 : retL ≠ []) (hr2 : ∀ c ∈ retL, isWordChar c) :
    parseHeaderL (markerL ++ nameL ++ ' ' :: ':' :: ' ' :: tailForm toks retL) =
      parseToks nameL toks retL := by
  rw [parseHeaderL_parts _ _ hn1 hn2]
  cases toks with
  | nil =>
    rw [tailForm, matchTail_ret hr1 hr2]
    rfl
  | cons t ts =>
    rw [tailForm]
    have hnz : ∀ u ∈ t :: ts, u ≠ [] := fun u hu => (ht u hu).1
    have hword : ∀ u ∈ t :: ts, ∀ c ∈ u, isWordChar c := fun u hu => (ht u hu).2
    rw [matchTail_args (intercalateCS_ne_nil hnz (List.cons_ne_nil _ _))
      (intercalateCS_all_argsChar hword) hr1 hr2]
    show parseToks nameL (splitTerminator (intercalateCS (t :: ts))) retL = _
    rw [splitTerminator_intercalateCS ht (List.cons_ne_nil _ _)]

/-- Round trip at the `Meta` level: rendering a signature whose name is a
nonempty word and re-parsing recovers the signature, at any arity. -/
theorem parse_renderHeader (m : Meta) (h1 : m.name.data ≠ [])
    (h2 : ∀ c ∈ m.name.data, isWordChar c) :
    parse_header (renderHeader m) = .ok m := by
  have hdata : (renderHeader m).data =
      markerL ++ m.name.data ++ ' ' :: ':' :: ' ' ::
        tailForm (m.arg_types.map DType.asChars) m.return_type.asChars := by
    show markerL ++ m.name.data ++ [' ', ':', ' '] ++
        renderTail m.arg_types m.return_type = _
    rw [List.append_assoc (markerL ++ m.name.data)]
    rfl
  have ht : ∀ t ∈ m.arg_types.map DType.asChars,
      t ≠ [] ∧ ∀ c ∈ t, isWordChar c := by
    intro t htm
    obtain ⟨d, _, rfl⟩ := List.mem_map.1 htm
    exact ⟨asChars_ne_nil d, asChars_word d⟩
  rw [parse_header, hdata,
    parseHeaderL_rendered _ _ _ h1 h2 ht (asChars_ne_nil _) (asChars_word _),
    parseToks_ok_of_wf]

/-- Resolution of the captured tokens reports the first unrecognized token
when one exists (among the argument tokens, then the return token). -/
theorem parseToks_firstBad (nameL : List Char) (toks : List (List Char))
    (retL : List Char)
    (h : ¬ (∀ t ∈ toks, (dtype_from_str t).isOk = true) ∨
      ¬ (dtype_from_str retL).isOk = true) :
    parseToks nameL toks retL =
      .error (.unknownType ⟨firstBadToken toks retL⟩) := by
  induction toks with
  | nil =>
    have hbad : ¬ (dtype_from_str retL).isOk = true := by
      rcases h with h | h
      · exact absurd (by simp) h
      · exact h
    cases hd : dtype_from_str retL with
    | error e =>
      have he : e = ⟨retL⟩ := by
        rw [dtype_from_str] at hd
        by_cases h1 : retL = "Str".data
        · rw [if_pos h1] at hd; cases hd
        · rw [if_neg h1] at hd
          by_cases h2 : retL = "U64".data
          · rw [if_pos h2] at hd; cases hd
          · rw [if_neg h2] at hd; cases hd; rfl
      rw [parseToks, parseTypeList, hd, he, firstBadToken]
    | ok d => rw [hd] at hbad; exact absurd rfl hbad
  | cons t ts ih =>
    cases hd : dtype_from_str t with
    | error e =>
      have he : e = ⟨t⟩ := by
        rw [dtype_from_str] at hd
        by_cases h1 : t = "Str".data
        · rw [if_pos h1] at hd; cases hd
        · rw [if_neg h1] at hd
          by_cases h2 : t = "U64".data
          · rw [if_pos h2] at hd; cases hd
          · rw [if_neg h2] at hd; cases hd; rfl
      rw [parseToks, parseTypeList, hd, he, firstBadToken, hd]
    | ok d =>
      have hrest : ¬ (∀ u ∈ ts, (dtype_from_str u).isOk = true) ∨
          ¬ (dtype_from_str retL).isOk = true := by
        rcases h with h | h
        · by_cases hts : ∀ u ∈ ts, (dtype_from_str u).isOk = true
          · exfalso
            apply h
            intro u hu
            rcases List.mem_cons.1 hu with h2 | h2
            · subst h2; rw [hd]; rfl
            · exact hts u h2
          · exact Or.inl hts
        · exact Or.inr h
      have ihh := ih hrest
      rw [parseToks, parseTypeList, hd]
      rw [firstBadToken, hd]
      rw [parseToks] at ihh
      cases hts : parseTypeList ts with
      | error e =>
        rw [hts] at ihh
        simpa using ihh
      | ok ds =>
        rw [hts] at ihh
        cases hret : dtype_from_str retL with
        | error e2 =>
          rw [hret] at ihh
          simpa using ihh
        | ok r =>
          rw [hret] at ihh
          cases ihh

/-! ### Inverse lemmas: what a successful parse says about the header -/

theorem parseToks_ok_inv {nameL : List Char} {toks : List (List Char)}
    {retL : List Char} {m : Meta} (h : parseToks nameL toks retL = .ok m) :
    m.name = ⟨nameL⟩ ∧ toks = m.arg_types.map DType.asChars ∧
      retL = m.return_type.asChars := by
  rw [parseToks] at h
  cases hts : parseTypeList toks with
  | error e => rw [hts] at h; cases h
  | ok ds =>
    rw [hts] at h
    cases hret : dtype_from_str retL with
    | error e => rw [hret] at h; cases h
    | ok r =>
      rw [hret] at h
      cases h
      exact ⟨rfl, parseTypeList_ok hts, dtype_from_str_ok hret⟩

theorem checkSplit_some {R : List Char} {k : Nat} {a r : List Char}
    (h : checkSplit R k = some (a, r)) :
    R = a ++ sepArrow ++ r ∧ a ≠ [] ∧ (∀ c ∈ a, isArgsChar c) ∧
      r ≠ [] ∧ ∀ c ∈ r, isWordChar c := by
  simp only [checkSplit] at h
  split at h
  case isFalse => cases h
  case isTrue hc =>
    cases h
    refine ⟨?_, hc.1, List.all_eq_true.1 hc.2.1, hc.2.2.2.1,
      List.all_eq_true.1 hc.2.2.2.2⟩
    have h1 : R = R.take k ++ R.drop k := (List.take_append_drop k R).symm
    have h2 : R.drop k = sepArrow ++ (R.drop k).drop 4 := by
      conv_lhs => rw [← List.take_append_drop 4 (R.drop k)]
      rw [hc.2.2.1]
    rw [List.append_assoc, ← h2]
    exact h1

theorem findSplit_some {R : List Char} {n : Nat} {a r : List Char}
    (h : findSplit R n = some (a, r)) :
    R = a ++ sepArrow ++ r ∧ a ≠ [] ∧ (∀ c ∈ a, isArgsChar c) ∧
      r ≠ [] ∧ ∀ c ∈ r, isWordChar c := by
  induction n with
  | zero => cases h
  | succ k ih =>
    rw [findSplit] at h
    cases hcs : checkSplit R (k + 1) with
    | some p =>
      rw [hcs] at h
      cases h
      exact checkSplit_some hcs
    | none =>
      rw [hcs] at h
      exact ih h

theorem matchTail_some {R : List Char} {argsO : Option (List Char)}
    {retL : List Char} (h : matchTail R = some (argsO, retL)) :
    (argsO = none ∧ retL = R ∧ R ≠ [] ∧ ∀ c ∈ R, isWordChar c) ∨
      (∃ a, argsO = some a ∧ R = a ++ sepArrow ++ retL ∧ a ≠ [] ∧
        (∀ c ∈ a, isArgsChar c) ∧ retL ≠ [] ∧ ∀ c ∈ retL, isWordChar c) := by
  rw [matchTail] at h
  cases hfs : findSplit R (R.takeWhile isArgsChar).length with
  | some p =>
    obtain ⟨a, r⟩ := p
    rw [hfs] at h
    cases h
    obtain ⟨h1, h2, h3, h4, h5⟩ := findSplit_some hfs
    exact Or.inr ⟨a, rfl, h1, h2, h3, h4, h5⟩
  | none =>
    rw [hfs] at h
    by_cases hc : R ≠ [] ∧ R.all isWordChar
    · rw [if_pos hc] at h
      cases h
      exact Or.inl ⟨rfl, rfl, hc.1, List.all_eq_true.1 hc.2⟩
    · rw [if_neg hc] at h
      cases h

theorem intercalateCS_splitFull (cs : List Char) :
    intercalateCS (splitFull cs) = cs := by
  induction cs using splitFull.induct with
  | case1 => rfl
  | case2 c => rfl
  | case3 c1 c2 cs h ih =>
    obtain ⟨hc1, hc2⟩ := h
    subst hc1; subst hc2
    rw [splitFull_sep]
    cases hs : splitFull cs with
    | nil => exact absurd hs (splitFull_ne_nil cs)
    | cons p ps =>
      rw [hs] at ih
      rw [intercalateCS]
      simpa using ih
  | case4 c1 c2 cs h p ps hps ih =>
    rw [splitFull, if_neg h, hps]
    rw [hps] at ih
    cases ps with
    | nil =>
      rw [intercalateCS] at ih ⊢
      rw [ih]
    | cons q qs =>
      rw [intercalateCS] at ih ⊢
      simp only [List.cons_append]
      rw [ih]
  | case5 c1 c2 cs h hps ih => exact absurd hps (splitFull_ne_nil _)

theorem splitTerminator_cases {a : List Char} {toks : List (List Char)}
    (h : splitTerminator a = toks) :
    splitFull a = toks ∨ splitFull a = toks ++ [[]] := by
  rw [splitTerminator] at h
  split at h
  case isTrue hl =>
    right
    rw [← h]
    exact (List.dropLast_append_getLast? _ hl).symm
  case isFalse hl =>
    left
    exact h

theorem intercalateCS_append_nil {toks : List (List Char)} (h : toks ≠ []) :
    intercalateCS (toks ++ [[]]) = intercalateCS toks ++ [',', ' '] := by
  induction toks with
  | nil => exact absurd rfl h
  | cons t ts ih =>
    cases ts with
    | nil =>
      show intercalateCS [t, []] = intercalateCS [t] ++ [',', ' ']
      simp [intercalateCS]
    | cons t2 ts2 =>
      show t ++ [',', ' '] ++ intercalateCS ((t2 :: ts2) ++ [[]]) =
        intercalateCS (t :: t2 :: ts2) ++ [',', ' ']
      rw [ih (List.cons_ne_nil _ _), intercalateCS]
      simp [List.append_assoc]

theorem data_mk (l : List Char) : (⟨l⟩ : String).data = l := rfl

theorem renderTail_cons (d : DType) (ds : List DType) (ret : DType) :
    renderTail (d :: ds) ret =
      intercalateCS ((d :: ds).map DType.asChars) ++ sepArrow ++
        ret.asChars := rfl

/-- The canonical-form theorem: a header text accepted by the parser is
exactly the canonical rendering of the parsed signature, except that a
single trailing `", "` after the last argument type is also accepted. -/
theorem parseHeaderL_ok_form {cs : List Char} {m : Meta}
    (h : parseHeaderL cs = .ok m) :
    m.name.data ≠ [] ∧ (∀ c ∈ m.name.data, isWordChar c) ∧
      (cs = (renderHeader m).data ∨
        (m.arg_types ≠ [] ∧ cs = (renderHeaderTrailing m).data)) := by
  simp only [parseHeaderL] at h
  by_cases h10 : cs.take 10 = markerL
  swap
  · rw [if_pos h10] at h; cases h
  rw [if_neg (not_not_intro h10)] at h
  by_cases hn : (cs.drop 10).takeWhile isWordChar = []
  · rw [if_pos hn] at h; cases h
  rw [if_neg hn] at h
  by_cases h3 : ((cs.drop 10).dropWhile isWordChar).take 3 = [' ', ':', ' ']
  swap
  · rw [if_pos h3] at h; cases h
  rw [if_neg (not_not_intro h3)] at h
  cases hmt : matchTail (((cs.drop 10).dropWhile isWordChar).drop 3) with
  | none => rw [hmt] at h; cases h
  | some pr =>
    obtain ⟨argsO, retL⟩ := pr
    rw [hmt] at h
    have hcs : cs = markerL ++ ((cs.drop 10).takeWhile isWordChar ++
        (' ' :: ':' :: ' ' ::
          ((cs.drop 10).dropWhile isWordChar).drop 3)) := by
      conv_lhs => rw [← List.take_append_drop 10 cs]
      rw [h10]
      congr 1
      conv_lhs => rw [← List.takeWhile_append_dropWhile isWordChar
        (cs.drop 10)]
      congr 1
      conv_lhs => rw [← List.take_append_drop 3
        ((cs.drop 10).dropWhile isWordChar)]
      rw [h3]
      rfl
    have hword : ∀ c ∈ (cs.drop 10).takeWhile isWordChar, isWordChar c :=
      fun c hc => List.mem_takeWhile_imp hc
    cases argsO with
    | none =>
      rcases matchTail_some hmt with ⟨_, hret, _, _⟩ | ⟨a, ha, _⟩
      swap
      · cases ha
      have h' : parseToks ((cs.drop 10).takeWhile isWordChar) [] retL =
          .ok m := h
      obtain ⟨hname, hargs, hret2⟩ := parseToks_ok_inv h'
      have hnd : m.name.data = (cs.drop 10).takeWhile isWordChar := by
        rw [hname]
      have hat : m.arg_types = [] := by
        cases hma : m.arg_types with
        | nil => rfl
        | cons d ds => rw [hma] at hargs; cases hargs
      refine ⟨by rw [hnd]; exact hn, by rw [hnd]; exact hword, Or.inl ?_⟩
      rw [hcs, hnd.symm, ← hret, hret2]
      simp [renderHeader, renderTail, tailForm, hat, data_mk,
        List.append_assoc]
    | some a =>
      rcases matchTail_some hmt with ⟨hno, _⟩ | ⟨a2, ha2, hR, hane, _, _, _⟩
      · cases hno
      injection ha2 with haa
      subst haa
      have h' : parseToks ((cs.drop 10).takeWhile isWordChar)
          (splitTerminator a) retL = .ok m := h
      obtain ⟨hname, hargs, hret2⟩ := parseToks_ok_inv h'
      have hnd : m.name.data = (cs.drop 10).takeWhile isWordChar := by
        rw [hname]
      have hfull := splitTerminator_cases hargs
      have hrecon := (intercalateCS_splitFull a).symm
      refine ⟨by rw [hnd]; exact hn, by rw [hnd]; exact hword, ?_⟩
      rcases hfull with hf | hf
      · -- no trailing separator: the canonical form
        rw [hf] at hrecon
        have hmapne : m.arg_types.map DType.asChars ≠ [] := by
          intro hmn
          rw [hmn] at hrecon
          exact hane (by rw [hrecon]; rfl)
        have hat : m.arg_types ≠ [] := by
          intro hmn
          exact hmapne (by rw [hmn]; rfl)
        left
        cases hma : m.arg_types with
        | nil => exact absurd hma hat
        | cons d ds =>
          rw [hcs, hnd.symm, hR, hrecon, hret2, hma]
          simp [renderHeader, renderTail_cons, hma, data_mk,
            List.append_assoc]
      · -- trailing ", " after the last argument type
        rw [hf] at hrecon
        have hmapne : m.arg_types.map DType.asChars ≠ [] := by
          intro hmn
          rw [hmn] at hrecon
          exact hane (by rw [hrecon]; rfl)
        have hat : m.arg_types ≠ [] := by
          intro hmn
          exact hmapne (by rw [hmn]; rfl)
        right
        refine ⟨hat, ?_⟩
        rw [intercalateCS_append_nil hmapne] at hrecon
        rw [hcs, hnd.symm, hR, hrecon, hret2]
        simp [renderHeaderTrailing, data_mk, List.append_assoc]

/-! ### Lemmas about the invoker's failure boundary -/

theorem hook_restore (s : HostState) :
    ({ { s with hook := Hook.silent } with hook := s.hook }) = s := by
  cases s
  rfl

/-- Behavior of `invoke` on a supported arity whose foreign call panics with a `String`
payload: the panic is caught, the message is reported on standard error,
the hook is restored, and the host continues. -/
theorem invoke_panic_reported (m : Meta) (msg : String) (s : HostState)
    (harity : m.arg_types.length ≤ 2) :
    invoke m (.error (.strMsg msg)) s =
      .ok { s with stderr := s.stderr ++ ["plugin panicked: " ++ msg] } := by
  rcases hta : m.arg_types with _ | ⟨a, _ | ⟨b, _ | ⟨c, t⟩⟩⟩
  · simp [invoke, catch_unwind_silent, invokeDispatch, runCall, hta,
      hook_restore]
  · simp [invoke, catch_unwind_silent, invokeDispatch, runCall, hta,
      hook_restore]
  · simp [invoke, catch_unwind_silent, invokeDispatch, runCall, hta,
      hook_restore]
  · rw [hta] at harity
    simp at harity

/-- Behavior of `invoke` on a supported arity whose foreign call returns normally: the
rendered result is printed and the hook is restored. -/
theorem invoke_ok_printed (m : Meta) (r : String) (s : HostState)
    (harity : m.arg_types.length ≤ 2) :
    invoke m (.ok r) s =
      .ok { s with stdout := s.stdout ++ [">>> " ++ r] } := by
  rcases hta : m.arg_types with _ | ⟨a, _ | ⟨b, _ | ⟨c, t⟩⟩⟩
  · simp [invoke, catch_unwind_silent, invokeDispatch, runCall, hta]
  · simp [invoke, catch_unwind_silent, invokeDispatch, runCall, hta]
  · simp [invoke, catch_unwind_silent, invokeDispatch, runCall, hta]
  · rw [hta] at harity
    simp at harity

/-- Behavior of `invoke` on an unsupported arity (three or more arguments): the
`unimplemented!` panic is caught at the boundary and reported, and the
foreign call is never performed. -/
theorem invoke_unimplemented (m : Meta) (callee : Except Payload String)
    (s : HostState) {t1 t2 t3 : DType} {rest : List DType}
    (hta : m.arg_types = t1 :: t2 :: t3 :: rest) :
    invoke m callee s =
      .ok { s with stderr := s.stderr ++
        ["plugin panicked: not implemented: more than 2 arguments"] } := by
  simp [invoke, catch_unwind_silent, invokeDispatch, hta, hook_restore]

/-! ### Lemmas about the loader's header/body split -/

theorem splitOnce_eq_none {cs : List Char} (h : ∀ c ∈ cs, c ≠ '\n') :
    splitOnce cs = none := by
  induction cs with
  | nil => rfl
  | cons c cs ih =>
    rw [splitOnce, if_neg (h c (by simp))]
    rw [ih fun c hc => h c (by simp [hc])]
    rfl

theorem splitOnce_app {h b : List Char} (hh : ∀ c ∈ h, c ≠ '\n') :
    splitOnce (h ++ '\n' :: b) = some (h, b) := by
  induction h with
  | nil => simp [splitOnce]
  | cons c cs ih =>
    rw [List.cons_append, splitOnce, if_neg (hh c (by simp))]
    rw [ih fun c hc => hh c (by simp [hc])]
    rfl

theorem string_eq_of_data {s t : String} (h : s.data = t.data) : s = t := by
  cases s
  cases t
  cases h
  rfl

/-! ### Claim theorems -/

/-- C1, counterexample: for the claim's own example signature
`f : U64, Str -> U64`, `invoke2` performs an out-parameter call (the entry
is cast to `fn(*mut u64, *const c_void, *const c_void)`), not the
direct-return call the claim asserts. -/
theorem C1_counterexample :
    (invoke2 DType.U64 DType.Str DType.U64 16 32).retConv =
      RetConv.outParam ∧ RetConv.outParam ≠ RetConv.direct := by
  exact ⟨rfl, by decide⟩

/-- C1, amended: `Str`-typed results go through a caller-supplied
out-parameter at every arity; `U64`-typed results are returned directly at
arities 0 and 1, but at arity 2 they too go through an out-parameter
(`fn(*mut u64, ..)` in `invoke2`). -/
theorem C1_call_shape_selection :
    (invoke0 DType.Str).retConv = RetConv.outParam ∧
    (invoke0 DType.U64).retConv = RetConv.direct ∧
    (∀ t1 a1, (invoke1 t1 DType.Str a1).retConv = RetConv.outParam ∧
      (invoke1 t1 DType.U64 a1).retConv = RetConv.direct) ∧
    (∀ t1 t2 a1 a2,
      (invoke2 t1 t2 DType.Str a1 a2).retConv = RetConv.outParam ∧
      (invoke2 t1 t2 DType.U64 a1 a2).retConv = RetConv.outParam) :=
  ⟨rfl, rfl, fun _ _ => ⟨rfl, rfl⟩, fun _ _ _ _ => ⟨rfl, rfl⟩⟩

/-- C2, counterexample: a `U64` argument stored at address 1000 is passed
as the word 42 (the integer value cast to a pointer, `*n as *const _`),
not as the address 1000 of the synthesized `Value` the claim asserts. -/
theorem C2_counterexample :
    (invoke1 DType.U64 DType.U64 1000).argSlots = [42] ∧
    (invoke1 DType.U64 DType.U64 1000).argSlots ≠ [1000] := by
  exact ⟨by decide, by decide⟩

/-- C2, amended: a `Str`-typed argument slot carries the raw address of
the synthesized `Value`; a `U64`-typed argument slot carries the integer
value itself (the sample value 42) cast to a pointer-sized word, not the
value's address. -/
theorem C2_argument_slots :
    ∀ (ret : DType) (a1 a2 : Nat),
      (invoke1 DType.Str ret a1).argSlots = [a1] ∧
      (invoke1 DType.U64 ret a1).argSlots = [42] ∧
      (invoke2 DType.Str DType.Str ret a1 a2).argSlots = [a1, a2] ∧
      (invoke2 DType.Str DType.U64 ret a1 a2).argSlots = [a1, 42] ∧
      (invoke2 DType.U64 DType.Str ret a1 a2).argSlots = [42, a2] ∧
      (invoke2 DType.U64 DType.U64 ret a1 a2).argSlots = [42, 42] := by
  have h42 : (42 : Nat) % 2 ^ 64 = 42 := by decide
  intro ret a1 a2
  cases ret <;>
    simp [invoke1, invoke2, generate_value, Value.as_void_ptr, h42]

/-- C3: a foreign call that aborts abnormally (modelled, following the
spec's description of the host's panic path, as a panic carrying a
`String` message) is caught at the `invoke` boundary, its message is
reported as a plugin failure on standard error, the host state survives
(the process does not terminate), and a subsequent independent `invoke` of
a different valid plugin in the same run still succeeds and prints its
result. -/
theorem C3_failure_isolation (m1 m2 : Meta) (msg r2 : String)
    (s : HostState) (h1 : m1.arg_types.length ≤ 2)
    (h2 : m2.arg_types.length ≤ 2) :
    invoke m1 (.error (.strMsg msg)) s =
      .ok { s with stderr := s.stderr ++ ["plugin panicked: " ++ msg] } ∧
    invoke m2 (.ok r2)
        { s with stderr := s.stderr ++ ["plugin panicked: " ++ msg] } =
      .ok { s with
        stdout := s.stdout ++ [">>> " ++ r2],
        stderr := s.stderr ++ ["plugin panicked: " ++ msg] } :=
  ⟨invoke_panic_reported m1 msg s h1, invoke_ok_printed m2 r2 _ h2⟩

/-- C3, witness: a concrete faulting plugin followed by a concrete
successful plugin in the same run. -/
theorem C3_failure_isolation_witness :
    invoke ⟨"boom", [DType.U64], DType.U64⟩ (.error (.strMsg "crashed"))
        ⟨Hook.dflt, [], []⟩ =
      .ok ⟨Hook.dflt, [], ["plugin panicked: crashed"]⟩ ∧
    invoke ⟨"ok", [], DType.Str⟩ (.ok "hello")
        ⟨Hook.dflt, [], ["plugin panicked: crashed"]⟩ =
      .ok ⟨Hook.dflt, [">>> hello"], ["plugin panicked: crashed"]⟩ :=
  C3_failure_isolation ⟨"boom", [DType.U64], DType.U64⟩
    ⟨"ok", [], DType.Str⟩ "crashed" "hello" ⟨Hook.dflt, [], []⟩
    (by decide) (by decide)

/-- C4: a rendered header with three or more argument types drawn from
`{Str, U64}` parses successfully with all argument types in declaration
order, and invoking the resulting signature reports the
`unimplemented!("more than 2 arguments")` condition through the recovered
panic path instead of crashing the host. -/
theorem C4_arity_cap (name : String) (ts : List DType) (ret : DType)
    (callee : Except Payload String) (s : HostState)
    (hn1 : name.data ≠ []) (hn2 : ∀ c ∈ name.data, isWordChar c)
    (hlen : 3 ≤ ts.length) :
    parse_header (renderHeader ⟨name, ts, ret⟩) = .ok ⟨name, ts, ret⟩ ∧
    invoke ⟨name, ts, ret⟩ callee s =
      .ok { s with stderr := s.stderr ++
        ["plugin panicked: not implemented: more than 2 arguments"] } := by
  constructor
  · exact parse_renderHeader ⟨name, ts, ret⟩ hn1 hn2
  · rcases ts with _ | ⟨t1, _ | ⟨t2, _ | ⟨t3, rest⟩⟩⟩ <;>
      simp at hlen
    exact invoke_unimplemented _ callee s rfl

/-- C4, witness: the three-argument header
`#[plugin] f : U64, Str, U64 -> Str` parses and its invocation reports the
not-implemented condition. -/
theorem C4_arity_cap_witness :
    parse_header "#[plugin] f : U64, Str, U64 -> Str" =
      .ok ⟨"f", [DType.U64, DType.Str, DType.U64], DType.Str⟩ ∧
    invoke ⟨"f", [DType.U64, DType.Str, DType.U64], DType.Str⟩
        (.ok "unused") ⟨Hook.dflt, [], []⟩ =
      .ok ⟨Hook.dflt, [],
        ["plugin panicked: not implemented: more than 2 arguments"]⟩ :=
  C4_arity_cap "f" [DType.U64, DType.Str, DType.U64] DType.Str
    (.ok "unused") ⟨Hook.dflt, [], []⟩ (by decide) (by decide) (by decide)

/-- C5: for every signature whose name is a nonempty identifier (`\w+`)
and whose arity is at most 2, rendering the signature to its textual
header form (using the canonical type names of `DType::as_str`) and
re-parsing yields the original signature. -/
theorem C5_header_round_trip (m : Meta) (h1 : m.name.data ≠ [])
    (h2 : ∀ c ∈ m.name.data, isWordChar c)
    (_h3 : m.arg_types.length ≤ 2) :
    parse_header (renderHeader m) = .ok m :=
  parse_renderHeader m h1 h2

/-- C5, witness: the rendered two-argument signature
`#[plugin] add2 : U64, Str -> U64` round-trips. -/
theorem C5_header_round_trip_witness :
    parse_header "#[plugin] add2 : U64, Str -> U64" =
      .ok ⟨"add2", [DType.U64, DType.Str], DType.U64⟩ :=
  C5_header_round_trip ⟨"add2", [DType.U64, DType.Str], DType.U64⟩
    (by decide) (by decide) (by decide)

/-- C6: a header in the grammar's shape whose type tokens are word-shaped
but where some token (argument or return) is not a recognized scalar type
fails to parse with a `ParseError` carrying the first offending token. -/
theorem C6_unknown_type_rejected (name : String) (toks : List String)
    (ret : String) (hn1 : name.data ≠ [])
    (hn2 : ∀ c ∈ name.data, isWordChar c)
    (ht : ∀ t ∈ toks, t.data ≠ [] ∧ ∀ c ∈ t.data, isWordChar c)
    (hr1 : ret.data ≠ []) (hr2 : ∀ c ∈ ret.data, isWordChar c)
    (hbad : ¬ (∀ t ∈ toks.map String.data, (dtype_from_str t).isOk = true) ∨
      ¬ (dtype_from_str ret.data).isOk = true) :
    parse_header (renderHeaderRaw name toks ret) =
      .error (.unknownType
        ⟨firstBadToken (toks.map String.data) ret.data⟩) := by
  have hdata : (renderHeaderRaw name toks ret).data =
      markerL ++ name.data ++ ' ' :: ':' :: ' ' ::
        tailForm (toks.map String.data) ret.data := by
    show markerL ++ name.data ++ [' ', ':', ' '] ++
        tailForm (toks.map String.data) ret.data = _
    rw [List.append_assoc (markerL ++ name.data)]
    rfl
  have ht' : ∀ t ∈ toks.map String.data,
      t ≠ [] ∧ ∀ c ∈ t, isWordChar c := by
    intro t htm
    obtain ⟨u, hu, rfl⟩ := List.mem_map.1 htm
    exact ht u hu
  rw [parse_header, hdata,
    parseHeaderL_rendered _ _ _ hn1 hn2 ht' hr1 hr2,
    parseToks_firstBad _ _ _ hbad]

/-- C6, witness: `parse("#[plugin] f : Bogus -> U64")` fails with a
`ParseError` naming `Bogus`. -/
theorem C6_unknown_type_rejected_witness :
    parse_header "#[plugin] f : Bogus -> U64" =
      .error (.unknownType "Bogus") :=
  C6_unknown_type_rejected "f" ["Bogus"] "U64" (by decide) (by decide)
    (by decide) (by decide) (by decide) (by decide)

/-- C7: compilation succeeds, and the library is loaded from the declared
output path, exactly when the `roc` subprocess exits with status zero; any
nonzero status yields a failure carrying the raw exit status, and
`Library::new` is never reached in that case. -/
theorem C7_compile_status (dylibPath appPath : String) (status : Int) :
    ((compileRun dylibPath appPath status).result = .ok dylibPath ↔
      status = 0) ∧
    (status ≠ 0 →
      (compileRun dylibPath appPath status).result = .error status ∧
      (compileRun dylibPath appPath status).loadAttempted = false) ∧
    (status = 0 →
      (compileRun dylibPath appPath status).loadAttempted = true) := by
  by_cases h : status = 0 <;> simp [compileRun, h]

/-- C7, witness: a failing compile with exit status 1 carries the status
and never attempts the library load; a successful compile loads from the
declared output path. -/
theorem C7_compile_status_witness :
    ((compileRun "plugin.dylib" "plugin.roc" 1).result = .error 1 ∧
      (compileRun "plugin.dylib" "plugin.roc" 1).loadAttempted = false) ∧
    ((compileRun "plugin.dylib" "plugin.roc" 0).result =
      .ok "plugin.dylib" ↔ (0 : Int) = 0) :=
  ⟨(C7_compile_status "plugin.dylib" "plugin.roc" 1).2.1 (by decide),
    (C7_compile_status "plugin.dylib" "plugin.roc" 0).1⟩

/-- C8: `catch_unwind_silent` restores the panic hook that was installed
before the call on every exit path — the wrapped computation `f` is
arbitrary (it may return normally or propagate a caught panic in its first
component, and may even have replaced the hook itself) — and passes the
wrapped computation's outcome through unchanged. -/
theorem C8_hook_restored
    (f : HostState → Except Payload Unit × HostState) (s : HostState) :
    (catch_unwind_silent f s).2.hook = s.hook ∧
    (catch_unwind_silent f s).1 = (f { s with hook := Hook.silent }).1 :=
  ⟨rfl, rfl⟩

/-- C9, counterexample: the header `#[plugin] f : Str,  -> U64` — a
trailing `", "` after the last argument type, hence two spaces before the
`->` — is accepted by the parser (as `f : Str -> U64`), even though it is
not the strictly-spaced canonical rendering of its signature. -/
theorem C9_counterexample :
    parse_header "#[plugin] f : Str,  -> U64" =
      .ok ⟨"f", [DType.Str], DType.U64⟩ ∧
    "#[plugin] f : Str,  -> U64" ≠
      renderHeader ⟨"f", [DType.Str], DType.U64⟩ := by
  exact ⟨by decide, by decide⟩

/-- C9, amended: a header is accepted only if it is the strictly-spaced
canonical form of its signature (exactly one space after the marker,
around `:` and `->`, and `", "` between argument types) — except that a
single trailing `", "` after the last argument type is also accepted,
because `split_terminator` drops the resulting empty token.  The claim's
two rejected examples indeed fail to parse. -/
theorem C9_strict_spacing :
    (∀ (h : String) (m : Meta), parse_header h = .ok m →
      h = renderHeader m ∨
        (m.arg_types ≠ [] ∧ h = renderHeaderTrailing m)) ∧
    parse_header "#[plugin] f:U64" = .error .noMatch ∧
    parse_header "#[plugin] f : Str,U64 -> U64" =
      .error (.unknownType "Str,U64") := by
  refine ⟨?_, by decide, by decide⟩
  intro h m hok
  obtain ⟨-, -, hform | ⟨hne, hform⟩⟩ := parseHeaderL_ok_form hok
  · exact Or.inl (string_eq_of_data hform)
  · exact Or.inr ⟨hne, string_eq_of_data hform⟩

/-- C9, witness: instantiating the canonical-form direction at a concrete
accepted header. -/
theorem C9_strict_spacing_witness :
    "#[plugin] g : U64 -> Str" = renderHeader ⟨"g", [DType.U64], DType.Str⟩ ∨
    (([DType.U64] : List DType) ≠ [] ∧
      "#[plugin] g : U64 -> Str" =
        renderHeaderTrailing ⟨"g", [DType.U64], DType.Str⟩) :=
  C9_strict_spacing.1 "#[plugin] g : U64 -> Str"
    ⟨"g", [DType.U64], DType.Str⟩ (by decide)

/-- C10: `Plugin::load` requires the file contents to contain a newline:
the header is the text before the first `'\n'` and the body everything
after it, and contents without any newline fail the header/body split
(`split_once` returns `None`) regardless of the header text itself. -/
theorem C10_load_newline :
    (∀ code : String, (∀ c ∈ code.data, c ≠ '\n') →
      loadPlugin code = .error .noNewline) ∧
    (∀ hdr body : List Char, (∀ c ∈ hdr, c ≠ '\n') →
      splitOnce (hdr ++ '\n' :: body) = some (hdr, body)) := by
  constructor
  · intro code hcode
    rw [loadPlugin, splitOnce_eq_none hcode]
  · intro hdr body hh
    exact splitOnce_app hh

/-- C10, witness: a file consisting only of the grammatically valid header
`#[plugin] f : U64` with no trailing newline fails to load, and a concrete
newline-containing content splits into header and body. -/
theorem C10_load_newline_witness :
    loadPlugin "#[plugin] f : U64" = .error .noNewline ∧
    parse_header "#[plugin] f : U64" = .ok ⟨"f", [], DType.U64⟩ ∧
    splitOnce ("ab".data ++ '\n' :: "cd".data) =
      some ("ab".data, "cd".data) :=
  ⟨C10_load_newline.1 "#[plugin] f : U64" (by decide), by decide,
    C10_load_newline.2 "ab".data "cd".data (by decide)⟩
